import Mathlib

/-!
Verification of the contact-book assistant (`src/main.py`).

The Python program is shallowly embedded below:
* `Date` with proleptic-Gregorian arithmetic models `datetime.date`
  (`strptime`, `replace(year=...)`, subtraction in days, `weekday`,
  `+ timedelta(days=n)`, `strftime("%d.%m.%Y")`);
* `mkPhone` / `mkBirthday` model the validating constructors `Phone.__init__`
  and `Birthday.__init__` (a `.error` value models a raised `ValueError`);
* `Record` with `add_phone`, `find_phone`, `remove_phone`, `edit_phone`,
  `add_birthday` models the mutable `Record` class: each mutating method
  returns the record state after the call together with `some err` when the
  Python method raises (Python mutates in place, so the state at raise time
  is observable);
* `get_upcoming_birthdays` models `AddressBook.get_upcoming_birthdays`,
  run over the list of records (`self.data.values()` in insertion order)
  with the current date passed explicitly.
-/

namespace HW02

/-! ### Calendar arithmetic (model of Python `datetime.date`) -/

def isLeapYear (y : Nat) : Bool :=
  y % 4 == 0 && (y % 100 != 0 || y % 400 == 0)

def daysInMonth (m y : Nat) : Nat :=
  match m with
  | 1 => 31
  | 2 => if isLeapYear y then 29 else 28
  | 3 => 31
  | 4 => 30
  | 5 => 31
  | 6 => 30
  | 7 => 31
  | 8 => 31
  | 9 => 30
  | 10 => 31
  | 11 => 30
  | 12 => 31
  | _ => 0

structure Date where
  year : Nat
  month : Nat
  day : Nat
deriving DecidableEq, Repr

/-- Structural validity of a calendar date (Python additionally caps the
year at `9999`; see `Date.inPyRange`). -/
def Date.Valid (d : Date) : Prop :=
  1 ≤ d.year ∧ 1 ≤ d.month ∧ d.month ≤ 12 ∧ 1 ≤ d.day ∧ d.day ≤ daysInMonth d.month d.year

instance (d : Date) : Decidable d.Valid := by
  unfold Date.Valid; infer_instance

/-- What `datetime.date(y, m, d)` accepts: a valid date with
`MINYEAR = 1 ≤ year ≤ MAXYEAR = 9999`. -/
def Date.inPyRange (d : Date) : Prop := d.Valid ∧ d.year ≤ 9999

instance (d : Date) : Decidable d.inPyRange := by
  unfold Date.inPyRange; infer_instance

/-- Python `date` comparison: lexicographic on (year, month, day). -/
def Date.LtProp (a b : Date) : Prop :=
  a.year < b.year ∨ (a.year = b.year ∧
    (a.month < b.month ∨ (a.month = b.month ∧ a.day < b.day)))

instance (a b : Date) : Decidable (a.LtProp b) := by
  unfold Date.LtProp; infer_instance

def Date.before (a b : Date) : Bool := decide (a.LtProp b)

/-- Number of leap years in `1..y-1`. -/
def leapsBefore (y : Nat) : Nat :=
  (y - 1) / 4 - (y - 1) / 100 + (y - 1) / 400

/-- Days strictly before January 1 of year `y` (rata-die style count,
day 1 = 0001-01-01). -/
def daysBeforeYear (y : Nat) : Nat := 365 * (y - 1) + leapsBefore y

def daysInYear (y : Nat) : Nat := if isLeapYear y then 366 else 365

/-- Days of year `y` strictly before the first of month `m`. -/
def daysBeforeMonth (m y : Nat) : Nat :=
  match m with
  | 1 => 0
  | 2 => 31
  | 3 => 59 + (if isLeapYear y then 1 else 0)
  | 4 => 90 + (if isLeapYear y then 1 else 0)
  | 5 => 120 + (if isLeapYear y then 1 else 0)
  | 6 => 151 + (if isLeapYear y then 1 else 0)
  | 7 => 181 + (if isLeapYear y then 1 else 0)
  | 8 => 212 + (if isLeapYear y then 1 else 0)
  | 9 => 243 + (if isLeapYear y then 1 else 0)
  | 10 => 273 + (if isLeapYear y then 1 else 0)
  | 11 => 304 + (if isLeapYear y then 1 else 0)
  | 12 => 334 + (if isLeapYear y then 1 else 0)
  | _ => 0

/-- `date.toordinal()`: 0001-01-01 is day 1. -/
def Date.toRataDie (d : Date) : Nat :=
  daysBeforeYear d.year + daysBeforeMonth d.month d.year + d.day

/-- `date.weekday()`: Monday = 0, ..., Sunday = 6. -/
def Date.weekday (d : Date) : Nat := (d.toRataDie + 6) % 7

/-- `(a - b).days` for Python dates. -/
def diffDays (a b : Date) : Int := (a.toRataDie : Int) - (b.toRataDie : Int)

/-- Successor date (used to model `+ timedelta(days=n)`). -/
def nextDay (d : Date) : Date :=
  if d.day < daysInMonth d.month d.year then ⟨d.year, d.month, d.day + 1⟩
  else if d.month < 12 then ⟨d.year, d.month + 1, 1⟩
  else ⟨d.year + 1, 1, 1⟩

/-- `d + timedelta(days=n)` for `n ≥ 0`. -/
def addDays (d : Date) (n : Nat) : Date := nextDay^[n] d

/-- Zero-padded two-digit field of `strftime`. -/
def pad2 (n : Nat) : String :=
  if n < 10 then "0" ++ toString n else toString n

/-- Zero-padded four-digit year field of `strftime`. -/
def pad4 (n : Nat) : String :=
  if n < 10 then "000" ++ toString n
  else if n < 100 then "00" ++ toString n
  else if n < 1000 then "0" ++ toString n
  else toString n

/-- `date.strftime("%d.%m.%Y")`. -/
def strftimeDMY (d : Date) : String :=
  pad2 d.day ++ "." ++ pad2 d.month ++ "." ++ pad4 d.year

def digitVal (c : Char) : Nat := c.toNat - 48

/-- One `%d` / `%m` field of CPython `strptime`: two digits forming a value
in `lo..hi`, else a single nonzero digit (mirrors the regex alternations
`3[01]|[12]\d|0[1-9]|[1-9]` and `1[0-2]|0[1-9]|[1-9]`). -/
def parseNum2or1 (lo hi : Nat) : List Char → Option (Nat × List Char)
  | c1 :: c2 :: rest =>
    if c1.isDigit && c2.isDigit
        && decide (lo ≤ 10 * digitVal c1 + digitVal c2)
        && decide (10 * digitVal c1 + digitVal c2 ≤ hi) then
      some (10 * digitVal c1 + digitVal c2, rest)
    else if c1.isDigit && decide (1 ≤ digitVal c1) then
      some (digitVal c1, c2 :: rest)
    else none
  | [c1] =>
    if c1.isDigit && decide (1 ≤ digitVal c1) then some (digitVal c1, []) else none
  | [] => none

/-- The `%Y` field of CPython `strptime`: exactly four digits. -/
def parseYear4 : List Char → Option (Nat × List Char)
  | a :: b :: c :: d :: rest =>
    if a.isDigit && b.isDigit && c.isDigit && d.isDigit then
      some (1000 * digitVal a + 100 * digitVal b + 10 * digitVal c + digitVal d, rest)
    else none
  | _ => none

/-- `datetime.strptime(s, "%d.%m.%Y")`, restricted to ASCII digit strings:
parse day, `'.'`, month, `'.'`, four-digit year, require the whole string
consumed, then the `datetime` constructor's range check. A `.error` models
a raised `ValueError`. -/
def strptime (s : String) : Except String Date :=
  match parseNum2or1 1 31 s.data with
  | none => .error "ValueError"
  | some (d, rest1) =>
    match rest1 with
    | '.' :: rest2 =>
      match parseNum2or1 1 12 rest2 with
      | none => .error "ValueError"
      | some (m, rest3) =>
        match rest3 with
        | '.' :: rest4 =>
          match parseYear4 rest4 with
          | none => .error "ValueError"
          | some (y, rest5) =>
            if rest5 = [] then
              if (Date.mk y m d).inPyRange then .ok ⟨y, m, d⟩
              else .error "ValueError"
            else .error "ValueError"
        | _ => .error "ValueError"
    | _ => .error "ValueError"

/-- `date.replace(year=y)`: the new combination is re-checked by the
`datetime.date` constructor and raises `ValueError` when invalid
(e.g. Feb 29 into a non-leap year). -/
def date_replace_year (d : Date) (y : Nat) : Except String Date :=
  if (Date.mk y d.month d.day).inPyRange then .ok ⟨y, d.month, d.day⟩
  else .error "day is out of range for month"

/-! ### Validated fields and records (`Phone`, `Birthday`, `Record`) -/

/-- The inclusive code-point ranges on which CPython's `str.isdigit` returns
True: the characters with Unicode property Numeric_Type = Decimal or Digit
(extracted from CPython 3.11's Unicode tables). They comprise the ASCII
digits, the decimal digits of the other scripts (Arabic-Indic, Devanagari,
fullwidth, ..., 0xFF10-0xFF19 being the fullwidth digits), and the
digit-valued superscripts, subscripts and enclosed digits. -/
def pyDigitRanges : List (Nat × Nat) := [
  (48, 57), (178, 179), (185, 185), (1632, 1641),
  (1776, 1785), (1984, 1993), (2406, 2415), (2534, 2543),
  (2662, 2671), (2790, 2799), (2918, 2927), (3046, 3055),
  (3174, 3183), (3302, 3311), (3430, 3439), (3558, 3567),
  (3664, 3673), (3792, 3801), (3872, 3881), (4160, 4169),
  (4240, 4249), (4969, 4977), (6112, 6121), (6160, 6169),
  (6470, 6479), (6608, 6618), (6784, 6793), (6800, 6809),
  (6992, 7001), (7088, 7097), (7232, 7241), (7248, 7257),
  (8304, 8304), (8308, 8313), (8320, 8329), (9312, 9320),
  (9332, 9340), (9352, 9360), (9450, 9450), (9461, 9469),
  (9471, 9471), (10102, 10110), (10112, 10120), (10122, 10130),
  (42528, 42537), (43216, 43225), (43264, 43273), (43472, 43481),
  (43504, 43513), (43600, 43609), (44016, 44025), (65296, 65305),
  (66720, 66729), (68160, 68163), (68912, 68921), (69216, 69224),
  (69714, 69722), (69734, 69743), (69872, 69881), (69942, 69951),
  (70096, 70105), (70384, 70393), (70736, 70745), (70864, 70873),
  (71248, 71257), (71360, 71369), (71472, 71481), (71904, 71913),
  (72016, 72025), (72784, 72793), (73040, 73049), (73120, 73129),
  (92768, 92777), (92864, 92873), (93008, 93017), (120782, 120831),
  (123200, 123209), (123632, 123641), (125264, 125273), (127232, 127242),
  (130032, 130041)]

/-- Python `str.isdigit` on a single character: membership in one of the
`pyDigitRanges`. Note this is strictly wider than the ASCII digits `0`-`9`:
for example the fullwidth digit `'０'` (U+FF10) is accepted. -/
def pyIsDigit (c : Char) : Bool :=
  pyDigitRanges.any (fun r => decide (r.1 ≤ c.toNat) && decide (c.toNat ≤ r.2))

/-- `Phone.__init__`: accept iff `len(value) == 10 and value.isdigit()`,
with `isdigit` per character modelled by `pyIsDigit` (a nonempty string is
`isdigit` iff all of its characters are digit characters, and the length-10
test already forces nonemptiness). -/
def mkPhone (value : String) : Except String String :=
  if value.length == 10 && value.data.all pyIsDigit then .ok value
  else .error "ValueError"

/-- `Birthday.__init__`: format check via `strptime`, the raw string is
stored. -/
def mkBirthday (value : String) : Except String String :=
  match strptime value with
  | .ok _ => .ok value
  | .error _ => .error "Invalid date format. Use DD.MM.YYYY"

structure Record where
  name : String
  phones : List String
  birthday : Option String
deriving DecidableEq, Repr

/-- `Record(name)`. -/
def Record.init (name : String) : Record := ⟨name, [], none⟩

/-- `Record.add_phone`: `Phone(phone)` is constructed first; on success the
value is appended, on failure the list is untouched and the error escapes. -/
def Record.add_phone (r : Record) (phone : String) : Record × Option String :=
  match mkPhone phone with
  | .ok p => ({ r with phones := r.phones ++ [p] }, none)
  | .error e => (r, some e)

/-- `Record.find_phone`: first stored phone with the given value. -/
def Record.find_phone (r : Record) (phone : String) : Option String :=
  r.phones.find? (fun p => p == phone)

/-- `Record.remove_phone`: `list.remove` of the object `find_phone` returned;
removes the first occurrence, raises `ValueError` when absent. -/
def Record.remove_phone (r : Record) (phone : String) : Record × Option String :=
  match r.find_phone phone with
  | some p => ({ r with phones := r.phones.erase p }, none)
  | none => (r, some "ValueError")

/-- `Record.edit_phone`: if `old_phone` is found, `add_phone new_phone` then
`remove_phone old_phone`; otherwise raise `ValueError`. -/
def Record.edit_phone (r : Record) (old_phone new_phone : String) :
    Record × Option String :=
  match r.find_phone old_phone with
  | some _ =>
    match r.add_phone new_phone with
    | (r1, none) => r1.remove_phone old_phone
    | (r1, some e) => (r1, some e)
  | none => (r, some "ValueError")

/-- `Record.add_birthday`: overwrites the single birthday slot on success. -/
def Record.add_birthday (r : Record) (birthday : String) :
    Record × Option String :=
  match mkBirthday birthday with
  | .ok b => ({ r with birthday := some b }, none)
  | .error e => (r, some e)

/-! ### The upcoming-birthdays query -/

/-- Lines 126-130 of `main.py`: project the stored birthday into the current
year; if that date is strictly before today, into next year instead. -/
def projectBirthday (today birthday_date : Date) : Except String Date :=
  match date_replace_year birthday_date today.year with
  | .error e => .error e
  | .ok birthday_this_year =>
    if birthday_this_year.before today then
      date_replace_year birthday_date (today.year + 1)
    else
      .ok birthday_this_year

/-- Lines 133-135 of `main.py`: weekend roll-forward of the reported date. -/
def congratulationDate (t : Date) : Date :=
  if 5 ≤ t.weekday then addDays t (7 - t.weekday) else t

/-- The body of the `for` loop of `get_upcoming_birthdays` for one record:
`some (name, date string)` when the record contributes an entry, `none` when
it is skipped, `.error` when the Python code raises. -/
def recordEntry (today : Date) (r : Record) :
    Except String (Option (String × String)) :=
  match r.birthday with
  | none => .ok none
  | some b =>
    match strptime b with
    | .error e => .error e
    | .ok birthday_date =>
      match projectBirthday today birthday_date with
      | .error e => .error e
      | .ok birthday_this_year =>
        if 0 ≤ diffDays birthday_this_year today ∧
            diffDays birthday_this_year today ≤ 7 then
          .ok (some (r.name, strftimeDMY (congratulationDate birthday_this_year)))
        else
          .ok none

/-- `AddressBook.get_upcoming_birthdays`, over the record list
(`self.data.values()`) with `today` explicit. -/
def get_upcoming_birthdays (today : Date) :
    List Record → Except String (List (String × String))
  | [] => .ok []
  | r :: rs =>
    match recordEntry today r with
    | .error e => .error e
    | .ok o =>
      match get_upcoming_birthdays today rs with
      | .error e => .error e
      | .ok rest =>
        match o with
        | some entry => .ok (entry :: rest)
        | none => .ok rest

/-- Total per-record view: the entry a record contributes when the loop body
does not raise (used to state what the query returns). -/
def entryOrNone (today : Date) (r : Record) : Option (String × String) :=
  match recordEntry today r with
  | .ok o => o
  | .error _ => none

/-- Spec-side reading of claim C1: the record has a stored birthday whose
projected date falls within the inclusive 7-day window starting today. -/
def InWindowSpec (today : Date) (r : Record) : Prop :=
  ∃ b bd t, r.birthday = some b ∧ strptime b = .ok bd ∧
    projectBirthday today bd = .ok t ∧ ∃ k, k ≤ 7 ∧ t = addDays today k

/-! ### Operation lemmas -/

theorem date_replace_year_ok {d : Date} {y : Nat} {t : Date}
    (h : date_replace_year d y = .ok t) :
    t = ⟨y, d.month, d.day⟩ ∧ t.Valid ∧ t.year = y := by
  unfold date_replace_year at h
  by_cases hc : (Date.mk y d.month d.day).inPyRange
  · rw [if_pos hc] at h
    injection h with h'
    subst h'
    exact ⟨rfl, hc.1, rfl⟩
  · rw [if_neg hc] at h
    cases h

theorem date_replace_year_eq_ok {d : Date} {y : Nat}
    (hc : (Date.mk y d.month d.day).inPyRange) :
    date_replace_year d y = .ok ⟨y, d.month, d.day⟩ := by
  unfold date_replace_year
  rw [if_pos hc]

theorem projectBirthday_valid {today bd t : Date}
    (h : projectBirthday today bd = .ok t) : t.Valid := by
  cases h1 : date_replace_year bd today.year with
  | error e =>
    simp only [projectBirthday, h1] at h
    exact Except.noConfusion h
  | ok u =>
    simp only [projectBirthday, h1] at h
    by_cases hb : u.before today = true
    · rw [if_pos hb] at h
      exact (date_replace_year_ok h).2.1
    · rw [if_neg hb] at h
      injection h with h'
      subst h'
      exact (date_replace_year_ok h1).2.1

theorem find?_beq_of_mem {l : List String} {p : String} (h : p ∈ l) :
    l.find? (fun q => q == p) = some p := by
  induction l with
  | nil => cases h
  | cons a l ih =>
    by_cases ha : a = p
    · subst ha
      exact List.find?_cons_of_pos _ (by simp)
    · rw [List.find?_cons_of_neg _ (by simp [ha])]
      exact ih (List.mem_of_ne_of_mem (fun he => ha he.symm) h)

theorem find_phone_of_mem {r : Record} {p : String} (h : p ∈ r.phones) :
    r.find_phone p = some p :=
  find?_beq_of_mem h

theorem find_phone_none_iff {r : Record} {p : String} :
    r.find_phone p = none ↔ p ∉ r.phones := by
  unfold Record.find_phone
  rw [List.find?_eq_none]
  constructor
  · intro h hmem
    exact h p hmem (by simp)
  · intro h x hx hbeq
    rw [beq_iff_eq] at hbeq
    subst hbeq
    exact h hx

theorem mkPhone_ok_eq {s t : String} (h : mkPhone s = .ok t) : t = s := by
  unfold mkPhone at h
  by_cases hc : (s.length == 10 && s.data.all pyIsDigit) = true
  · rw [if_pos hc] at h
    injection h with h'
    exact h'.symm
  · rw [if_neg hc] at h
    cases h

theorem mkPhone_eq_ok {s : String}
    (hc : (s.length == 10 && s.data.all pyIsDigit) = true) :
    mkPhone s = .ok s := by
  unfold mkPhone
  rw [if_pos hc]

theorem mkPhone_eq_error {s : String}
    (hc : ¬((s.length == 10 && s.data.all pyIsDigit) = true)) :
    mkPhone s = .error "ValueError" := by
  unfold mkPhone
  rw [if_neg hc]

theorem mkBirthday_ok {s t : String} (h : mkBirthday s = .ok t) :
    t = s ∧ ∃ d, strptime s = .ok d := by
  unfold mkBirthday at h
  cases hs : strptime s with
  | ok d =>
    rw [hs] at h
    injection h with h'
    exact ⟨h'.symm, d, rfl⟩
  | error e =>
    rw [hs] at h
    cases h

theorem add_phone_ok {r : Record} {p : String} (h : mkPhone p = .ok p) :
    r.add_phone p = ({ r with phones := r.phones ++ [p] }, none) := by
  unfold Record.add_phone
  rw [h]

theorem add_phone_error {r : Record} {p e : String} (h : mkPhone p = .error e) :
    r.add_phone p = (r, some e) := by
  unfold Record.add_phone
  rw [h]

theorem remove_phone_of_mem {r : Record} {p : String} (h : p ∈ r.phones) :
    r.remove_phone p = ({ r with phones := r.phones.erase p }, none) := by
  have hf : r.find_phone p = some p := find_phone_of_mem h
  simp only [Record.remove_phone, hf]

theorem edit_phone_not_found {r : Record} {old new : String}
    (h : old ∉ r.phones) : r.edit_phone old new = (r, some "ValueError") := by
  have hf : r.find_phone old = none := find_phone_none_iff.mpr h
  simp only [Record.edit_phone, hf]

theorem edit_phone_found_ok {r : Record} {old new : String}
    (hold : old ∈ r.phones) (hnew : mkPhone new = .ok new) :
    r.edit_phone old new =
      ({ r with phones := r.phones.erase old ++ [new] }, none) := by
  have hf : r.find_phone old = some old := find_phone_of_mem hold
  have hadd : r.add_phone new = ({ r with phones := r.phones ++ [new] }, none) :=
    add_phone_ok hnew
  have hmem : old ∈ r.phones ++ [new] := List.mem_append_left _ hold
  have hf2 : Record.find_phone { r with phones := r.phones ++ [new] } old = some old :=
    find_phone_of_mem hmem
  simp only [Record.edit_phone, hf, hadd, Record.remove_phone, hf2]
  rw [List.erase_append_left _ hold]

theorem edit_phone_invalid_new {r : Record} {old new e : String}
    (hold : old ∈ r.phones) (hnew : mkPhone new = .error e) :
    r.edit_phone old new = (r, some e) := by
  have hf : r.find_phone old = some old := find_phone_of_mem hold
  have hadd : r.add_phone new = (r, some e) := add_phone_error hnew
  simp only [Record.edit_phone, hf, hadd]

/-! ### Calendar lemmas -/

theorem isLeapYear_iff (y : Nat) :
    isLeapYear y = true ↔ (y % 4 = 0 ∧ (y % 100 ≠ 0 ∨ y % 400 = 0)) := by
  simp [isLeapYear]

theorem daysInYear_eq (y : Nat) :
    daysInYear y = 365 + (if isLeapYear y then 1 else 0) := by
  unfold daysInYear
  cases isLeapYear y <;> simp

theorem leapsBefore_succ (y : Nat) (hy : 1 ≤ y) :
    leapsBefore (y + 1) = leapsBefore y + (if isLeapYear y then 1 else 0) := by
  have hli := isLeapYear_iff y
  unfold leapsBefore
  cases hb : isLeapYear y with
  | true =>
    rw [hb] at hli
    obtain ⟨h4, h2⟩ := hli.mp rfl
    simp only [if_pos]
    rcases h2 with h100 | h400 <;> omega
  | false =>
    rw [hb] at hli
    simp only [Bool.false_eq_true, if_false]
    have hp : ¬(y % 4 = 0 ∧ (y % 100 ≠ 0 ∨ y % 400 = 0)) := by
      intro hc
      simpa using hli.mpr hc
    by_cases h4 : y % 4 = 0
    · have h2 : ¬(y % 100 ≠ 0 ∨ y % 400 = 0) := fun hc => hp ⟨h4, hc⟩
      push_neg at h2
      obtain ⟨h100, h400⟩ := h2
      omega
    · omega

theorem daysBeforeYear_succ (y : Nat) (hy : 1 ≤ y) :
    daysBeforeYear (y + 1) = daysBeforeYear y + daysInYear y := by
  rw [daysInYear_eq]
  unfold daysBeforeYear
  rw [leapsBefore_succ y hy]
  omega

theorem daysBeforeYear_mono {y1 y2 : Nat} (h : y1 ≤ y2) :
    daysBeforeYear y1 ≤ daysBeforeYear y2 := by
  unfold daysBeforeYear leapsBefore
  omega

theorem daysBeforeMonth_succ {m : Nat} (y : Nat) (h1 : 1 ≤ m) (h2 : m ≤ 11) :
    daysBeforeMonth (m + 1) y = daysBeforeMonth m y + daysInMonth m y := by
  interval_cases m <;>
    cases h : isLeapYear y <;>
      simp [daysBeforeMonth, daysInMonth, h]

theorem daysBeforeMonth_add_le {m d y : Nat} (h1 : 1 ≤ m) (h2 : m ≤ 12)
    (hd : d ≤ daysInMonth m y) : daysBeforeMonth m y + d ≤ daysInYear y := by
  unfold daysInYear
  interval_cases m <;>
    cases h : isLeapYear y <;>
      simp [daysBeforeMonth, daysInMonth, h] at hd ⊢ <;> omega

theorem daysBeforeMonth_lt {m1 m2 y : Nat} (h1 : 1 ≤ m1) (h : m1 < m2)
    (h2 : m2 ≤ 12) : daysBeforeMonth m1 y + daysInMonth m1 y ≤ daysBeforeMonth m2 y := by
  have h3 : 2 ≤ m2 := by omega
  interval_cases m2 <;> interval_cases m1 <;>
    cases hL : isLeapYear y <;>
      simp [daysBeforeMonth, daysInMonth, hL]

theorem daysInMonth_pos {m y : Nat} (h1 : 1 ≤ m) (h2 : m ≤ 12) :
    1 ≤ daysInMonth m y := by
  interval_cases m <;> cases hL : isLeapYear y <;> simp [daysInMonth, hL]

theorem toRataDie_lt {a b : Date} (ha : a.Valid) (hb : b.Valid)
    (h : a.LtProp b) : a.toRataDie < b.toRataDie := by
  obtain ⟨hay, ham1, ham2, had1, had2⟩ := ha
  obtain ⟨hby, hbm1, hbm2, hbd1, hbd2⟩ := hb
  unfold Date.toRataDie
  rcases h with hy | ⟨hyeq, hm | ⟨hmeq, hd⟩⟩
  · have h1 : daysBeforeMonth a.month a.year + a.day ≤ daysInYear a.year :=
      daysBeforeMonth_add_le ham1 ham2 had2
    have h2 : daysBeforeYear (a.year + 1) = daysBeforeYear a.year + daysInYear a.year :=
      daysBeforeYear_succ _ hay
    have h3 : daysBeforeYear (a.year + 1) ≤ daysBeforeYear b.year :=
      daysBeforeYear_mono hy
    omega
  · have h1 : daysBeforeMonth a.month a.year + daysInMonth a.month a.year ≤
        daysBeforeMonth b.month a.year := daysBeforeMonth_lt ham1 hm hbm2
    rw [← hyeq]
    omega
  · rw [← hyeq, ← hmeq]
    omega

theorem toRataDie_inj {a b : Date} (ha : a.Valid) (hb : b.Valid)
    (h : a.toRataDie = b.toRataDie) : a = b := by
  by_contra hne
  have htri : a.LtProp b ∨ b.LtProp a := by
    unfold Date.LtProp
    have hfields : ¬(a.year = b.year ∧ a.month = b.month ∧ a.day = b.day) := by
      intro ⟨h1, h2, h3⟩
      exact hne (by cases a; cases b; simp_all)
    omega
  rcases htri with h' | h'
  · exact absurd h (Nat.ne_of_lt (toRataDie_lt ha hb h'))
  · exact absurd h.symm (Nat.ne_of_lt (toRataDie_lt hb ha h'))

theorem nextDay_valid {d : Date} (hd : d.Valid) : (nextDay d).Valid := by
  obtain ⟨h1, h2, h3, h4, h5⟩ := hd
  by_cases hlt : d.day < daysInMonth d.month d.year
  · have he : nextDay d = ⟨d.year, d.month, d.day + 1⟩ := by
      unfold nextDay; rw [if_pos hlt]
    rw [he]
    show 1 ≤ d.year ∧ 1 ≤ d.month ∧ d.month ≤ 12 ∧ 1 ≤ d.day + 1 ∧
      d.day + 1 ≤ daysInMonth d.month d.year
    exact ⟨h1, h2, h3, by omega, hlt⟩
  · by_cases hm : d.month < 12
    · have he : nextDay d = ⟨d.year, d.month + 1, 1⟩ := by
        unfold nextDay; rw [if_neg hlt, if_pos hm]
      rw [he]
      show 1 ≤ d.year ∧ 1 ≤ d.month + 1 ∧ d.month + 1 ≤ 12 ∧ 1 ≤ 1 ∧
        1 ≤ daysInMonth (d.month + 1) d.year
      exact ⟨h1, by omega, by omega, by omega,
        daysInMonth_pos (by omega) (by omega)⟩
    · have he : nextDay d = ⟨d.year + 1, 1, 1⟩ := by
        unfold nextDay; rw [if_neg hlt, if_neg hm]
      rw [he]
      show 1 ≤ d.year + 1 ∧ 1 ≤ 1 ∧ 1 ≤ 12 ∧ 1 ≤ 1 ∧ 1 ≤ daysInMonth 1 (d.year + 1)
      exact ⟨by omega, by omega, by omega, by omega,
        (show (1 : Nat) ≤ 31 by omega)⟩

theorem toRataDie_nextDay {d : Date} (hd : d.Valid) :
    (nextDay d).toRataDie = d.toRataDie + 1 := by
  obtain ⟨h1, h2, h3, h4, h5⟩ := hd
  by_cases hlt : d.day < daysInMonth d.month d.year
  · have he : nextDay d = ⟨d.year, d.month, d.day + 1⟩ := by
      unfold nextDay; rw [if_pos hlt]
    rw [he]
    show daysBeforeYear d.year + daysBeforeMonth d.month d.year + (d.day + 1) =
      d.toRataDie + 1
    unfold Date.toRataDie
    omega
  · have hde : d.day = daysInMonth d.month d.year := by omega
    by_cases hm : d.month < 12
    · have he : nextDay d = ⟨d.year, d.month + 1, 1⟩ := by
        unfold nextDay; rw [if_neg hlt, if_pos hm]
      rw [he]
      show daysBeforeYear d.year + daysBeforeMonth (d.month + 1) d.year + 1 =
        d.toRataDie + 1
      unfold Date.toRataDie
      have hstep := daysBeforeMonth_succ d.year h2 (by omega)
      omega
    · have hme : d.month = 12 := by omega
      have he : nextDay d = ⟨d.year + 1, 1, 1⟩ := by
        unfold nextDay; rw [if_neg hlt, if_neg hm]
      rw [he]
      show daysBeforeYear (d.year + 1) + daysBeforeMonth 1 (d.year + 1) + 1 =
        d.toRataDie + 1
      unfold Date.toRataDie
      have hsucc := daysBeforeYear_succ d.year h1
      have h12 : daysInMonth 12 d.year = 31 := rfl
      have h0 : daysBeforeMonth 1 (d.year + 1) = 0 := rfl
      have hlast : daysBeforeMonth 12 d.year + 31 = daysInYear d.year := by
        rw [daysInYear_eq]
        cases hL : isLeapYear d.year <;> simp [daysBeforeMonth, hL]
      rw [hme] at hde
      rw [hme]
      omega

theorem addDays_succ (d : Date) (k : Nat) :
    addDays d (k + 1) = nextDay (addDays d k) :=
  Function.iterate_succ_apply' nextDay k d

theorem addDays_valid {d : Date} (hd : d.Valid) (n : Nat) : (addDays d n).Valid := by
  induction n with
  | zero => exact hd
  | succ k ih =>
    rw [addDays_succ]
    exact nextDay_valid ih

theorem toRataDie_addDays {d : Date} (hd : d.Valid) (n : Nat) :
    (addDays d n).toRataDie = d.toRataDie + n := by
  induction n with
  | zero => rfl
  | succ k ih =>
    rw [addDays_succ, toRataDie_nextDay (addDays_valid hd k), ih]
    omega

theorem weekday_addDays {d : Date} (hd : d.Valid) (n : Nat) :
    (addDays d n).weekday = (d.weekday + n) % 7 := by
  unfold Date.weekday
  rw [toRataDie_addDays hd]
  omega

/-- The day-difference window test of line 132 is exactly: `t` is one of the
eight dates `today, today+1, ..., today+7`. -/
theorem window_iff {today t : Date} (htoday : today.Valid) (ht : t.Valid) :
    (0 ≤ diffDays t today ∧ diffDays t today ≤ 7) ↔
      ∃ k, k ≤ 7 ∧ t = addDays today k := by
  constructor
  · rintro ⟨h0, h7⟩
    unfold diffDays at h0 h7
    refine ⟨t.toRataDie - today.toRataDie, by omega, ?_⟩
    refine toRataDie_inj ht (addDays_valid htoday _) ?_
    rw [toRataDie_addDays htoday]
    omega
  · rintro ⟨k, hk, rfl⟩
    unfold diffDays
    rw [toRataDie_addDays htoday]
    constructor <;> [omega; omega]

/-! ### Query lemmas -/

theorem get_upcoming_eq_filterMap {today : Date} {book : List Record}
    {l : List (String × String)}
    (h : get_upcoming_birthdays today book = .ok l) :
    l = book.filterMap (entryOrNone today) := by
  induction book generalizing l with
  | nil =>
    simp only [get_upcoming_birthdays] at h
    injection h with h'
    rw [← h']
    rfl
  | cons r rs ih =>
    cases he : recordEntry today r with
    | error e =>
      simp only [get_upcoming_birthdays, he] at h
      exact Except.noConfusion h
    | ok o =>
      cases hrest : get_upcoming_birthdays today rs with
      | error e =>
        simp only [get_upcoming_birthdays, he, hrest] at h
        exact Except.noConfusion h
      | ok rest =>
        cases o with
        | some entry =>
          simp only [get_upcoming_birthdays, he, hrest] at h
          injection h with h'
          subst h'
          have hone : entryOrNone today r = some entry := by
            unfold entryOrNone
            rw [he]
          simp only [List.filterMap_cons, hone]
          rw [ih hrest]
        | none =>
          simp only [get_upcoming_birthdays, he, hrest] at h
          injection h with h'
          subst h'
          have hone : entryOrNone today r = none := by
            unfold entryOrNone
            rw [he]
          simp only [List.filterMap_cons, hone]
          exact ih hrest

theorem recordEntry_in_window {today : Date} {r : Record} {b : String} {bd t : Date}
    (hb : r.birthday = some b) (hs : strptime b = .ok bd)
    (hp : projectBirthday today bd = .ok t)
    (h0 : 0 ≤ diffDays t today) (h7 : diffDays t today ≤ 7) :
    recordEntry today r = .ok (some (r.name, strftimeDMY (congratulationDate t))) := by
  simp only [recordEntry, hb, hs, hp, if_pos (And.intro h0 h7)]

theorem entryOrNone_isSome_iff {today : Date} (htoday : today.Valid) (r : Record) :
    (entryOrNone today r).isSome = true ↔ InWindowSpec today r := by
  unfold entryOrNone
  cases hb : r.birthday with
  | none =>
    simp only [recordEntry, hb]
    constructor
    · intro hfalse
      simp at hfalse
    · rintro ⟨b, bd, t, hbb, -⟩
      rw [hb] at hbb
      cases hbb
  | some b =>
    cases hs : strptime b with
    | error e =>
      simp only [recordEntry, hb, hs]
      constructor
      · intro hfalse
        simp at hfalse
      · rintro ⟨b1, bd, t, hbb, hsb, -⟩
        rw [hb] at hbb
        injection hbb with hbb'
        subst hbb'
        rw [hs] at hsb
        exact Except.noConfusion hsb
    | ok bd =>
      cases hp : projectBirthday today bd with
      | error e =>
        simp only [recordEntry, hb, hs, hp]
        constructor
        · intro hfalse
          simp at hfalse
        · rintro ⟨b1, bd1, t, hbb, hsb, hpb, -⟩
          rw [hb] at hbb
          injection hbb with hbb'
          subst hbb'
          rw [hs] at hsb
          injection hsb with hsb'
          subst hsb'
          rw [hp] at hpb
          exact Except.noConfusion hpb
      | ok t =>
        have ht : t.Valid := projectBirthday_valid hp
        simp only [recordEntry, hb, hs, hp]
        by_cases hc : (0 ≤ diffDays t today ∧ diffDays t today ≤ 7)
        · rw [if_pos hc]
          constructor
          · intro _
            refine ⟨b, bd, t, hb, hs, hp, ?_⟩
            exact (window_iff htoday ht).mp hc
          · intro _
            rfl
        · rw [if_neg hc]
          constructor
          · intro hfalse
            simp at hfalse
          · rintro ⟨b1, bd1, t1, hbb, hsb, hpb, hwin⟩
            rw [hb] at hbb
            injection hbb with hbb'
            subst hbb'
            rw [hs] at hsb
            injection hsb with hsb'
            subst hsb'
            rw [hp] at hpb
            injection hpb with hpb'
            subst hpb'
            exact (hc ((window_iff htoday ht).mpr hwin)).elim

theorem entryOrNone_name {today : Date} {r : Record} {e : String × String}
    (h : entryOrNone today r = some e) : e.1 = r.name := by
  unfold entryOrNone at h
  cases hre : recordEntry today r with
  | error er =>
    rw [hre] at h
    replace h : (none : Option (String × String)) = some e := h
    cases h
  | ok o =>
    rw [hre] at h
    replace h : o = some e := h
    subst h
    cases hb : r.birthday with
    | none =>
      simp only [recordEntry, hb] at hre
      injection hre with h'
      cases h'
    | some b =>
      cases hs : strptime b with
      | error er =>
        simp only [recordEntry, hb, hs] at hre
        exact Except.noConfusion hre
      | ok bd =>
        cases hp : projectBirthday today bd with
        | error er =>
          simp only [recordEntry, hb, hs, hp] at hre
          exact Except.noConfusion hre
        | ok t =>
          simp only [recordEntry, hb, hs, hp] at hre
          by_cases hc : (0 ≤ diffDays t today ∧ diffDays t today ≤ 7)
          · rw [if_pos hc] at hre
            injection hre with h'
            injection h' with h''
            rw [← h'']
          · rw [if_neg hc] at hre
            injection hre with h'
            cases h'

/-! ### Record invariant (for claim C7) -/

/-- The data-model invariant of section 3 of the design: every stored phone
passes the 10-digit validation, every stored birthday parses. -/
def RecordInv (r : Record) : Prop :=
  (∀ p ∈ r.phones, mkPhone p = .ok p) ∧
    (∀ b, r.birthday = some b → ∃ d, strptime b = .ok d)

/-- Record states reachable from `Record(name)` by the mutating operations
(the state after a call, whether it raised or not). -/
inductive ReachableRecord : Record → Prop where
  | init (name : String) : ReachableRecord (Record.init name)
  | add_phone {r : Record} (p : String) :
      ReachableRecord r → ReachableRecord (r.add_phone p).1
  | edit_phone {r : Record} (old new : String) :
      ReachableRecord r → ReachableRecord (r.edit_phone old new).1
  | add_birthday {r : Record} (b : String) :
      ReachableRecord r → ReachableRecord (r.add_birthday b).1

theorem RecordInv_add_phone {r : Record} (h : RecordInv r) (p : String) :
    RecordInv (r.add_phone p).1 := by
  cases hm : mkPhone p with
  | ok q =>
    have hq : q = p := mkPhone_ok_eq hm
    rw [hq] at hm
    rw [add_phone_ok hm]
    refine ⟨?_, h.2⟩
    intro x hx
    rcases List.mem_append.mp hx with hx | hx
    · exact h.1 x hx
    · have : x = p := by simpa using hx
      subst this
      exact hm
  | error e =>
    rw [add_phone_error hm]
    exact h

theorem RecordInv_remove_phone {r : Record} (h : RecordInv r) (p : String) :
    RecordInv (r.remove_phone p).1 := by
  cases hf : r.find_phone p with
  | some q =>
    simp only [Record.remove_phone, hf]
    refine ⟨?_, h.2⟩
    intro x hx
    exact h.1 x (List.mem_of_mem_erase hx)
  | none =>
    simp only [Record.remove_phone, hf]
    exact h

theorem RecordInv_edit_phone {r : Record} (h : RecordInv r) (old new : String) :
    RecordInv (r.edit_phone old new).1 := by
  cases hf : r.find_phone old with
  | none =>
    simp only [Record.edit_phone, hf]
    exact h
  | some q =>
    simp only [Record.edit_phone, hf]
    cases hm : mkPhone new with
    | ok q2 =>
      have hq : q2 = new := mkPhone_ok_eq hm
      rw [hq] at hm
      have hadd := add_phone_ok (r := r) hm
      simp only [hadd]
      have h1 : RecordInv { r with phones := r.phones ++ [new] } := by
        have h2 := RecordInv_add_phone h new
        rw [hadd] at h2
        exact h2
      exact RecordInv_remove_phone h1 old
    | error e =>
      have hadd := add_phone_error (r := r) hm
      simp only [hadd]
      exact h

theorem RecordInv_add_birthday {r : Record} (h : RecordInv r) (b : String) :
    RecordInv (r.add_birthday b).1 := by
  cases hm : mkBirthday b with
  | ok q =>
    obtain ⟨hq, d, hd⟩ := mkBirthday_ok hm
    rw [hq] at hm
    simp only [Record.add_birthday, hm]
    refine ⟨h.1, ?_⟩
    intro b1 hb1
    replace hb1 : some b = some b1 := hb1
    injection hb1 with hb1'
    subst hb1'
    exact ⟨d, hd⟩
  | error e =>
    simp only [Record.add_birthday, hm]
    exact h

theorem RecordInv_of_reachable {r : Record} (h : ReachableRecord r) :
    RecordInv r := by
  induction h with
  | init name =>
    constructor
    · intro p hp
      cases hp
    · intro b hb
      exact Option.noConfusion hb
  | add_phone p _ ih => exact RecordInv_add_phone ih p
  | edit_phone old new _ ih => exact RecordInv_edit_phone ih old new
  | add_birthday b _ ih => exact RecordInv_add_birthday ih b

/-! ### Claims -/

/-- Claim C1: for every address book and every current date, the
upcoming-birthdays query returns exactly those records with a birthday whose
projected date falls within the inclusive 7-day window starting today
(`addDays today k` for some `k ≤ 7`); each returned entry carries the
record's name; and in particular, with today = 01.01.2025, a contact whose
stored birthday parses to January 3 of any year is returned with
congratulation date 03.01.2025. -/
theorem upcoming_birthdays_window_exact :
    (∀ (today : Date) (book : List Record) (l : List (String × String)),
      get_upcoming_birthdays today book = .ok l →
        l = book.filterMap (entryOrNone today)) ∧
    (∀ (today : Date) (r : Record), today.Valid →
      ((entryOrNone today r).isSome = true ↔ InWindowSpec today r)) ∧
    (∀ (today : Date) (r : Record) (e : String × String),
      entryOrNone today r = some e → e.1 = r.name) ∧
    (∀ (name : String) (phones : List String) (b : String) (bd : Date),
      strptime b = .ok bd → bd.month = 1 → bd.day = 3 →
        get_upcoming_birthdays ⟨2025, 1, 1⟩ [Record.mk name phones (some b)] =
          .ok [(name, "03.01.2025")]) := by
  refine ⟨?_, ?_, ?_, ?_⟩
  · intro today book l h
    exact get_upcoming_eq_filterMap h
  · intro today r htoday
    exact entryOrNone_isSome_iff htoday r
  · intro today r e h
    exact entryOrNone_name h
  · intro name phones b bd hs hm1 hd1
    have hbd : bd = ⟨bd.year, 1, 3⟩ := by
      cases bd
      simp_all
    rw [hbd] at hs
    have hproj : projectBirthday ⟨2025, 1, 1⟩ ⟨bd.year, 1, 3⟩ = .ok ⟨2025, 1, 3⟩ := rfl
    have hre : recordEntry ⟨2025, 1, 1⟩ (Record.mk name phones (some b)) =
        .ok (some (name, strftimeDMY (congratulationDate ⟨2025, 1, 3⟩))) :=
      recordEntry_in_window rfl hs hproj (by decide) (by decide)
    have hstr : strftimeDMY (congratulationDate ⟨2025, 1, 3⟩) = "03.01.2025" := rfl
    rw [hstr] at hre
    simp only [get_upcoming_birthdays, hre]

/-- Witness for C1 at a concrete book: today = 01.01.2025 and the single
contact "Alice" with stored birthday 03.01.1990. -/
theorem upcoming_birthdays_window_exact_witness :
    ([("Alice", "03.01.2025")] : List (String × String)) =
      [Record.mk "Alice" [] (some "03.01.1990")].filterMap
        (entryOrNone ⟨2025, 1, 1⟩) ∧
    ((entryOrNone ⟨2025, 1, 1⟩ (Record.mk "Alice" [] (some "03.01.1990"))).isSome =
        true ↔ InWindowSpec ⟨2025, 1, 1⟩ (Record.mk "Alice" [] (some "03.01.1990"))) ∧
    get_upcoming_birthdays ⟨2025, 1, 1⟩ [Record.mk "Alice" [] (some "03.01.1990")] =
      .ok [("Alice", "03.01.2025")] := by
  refine ⟨?_, ?_, ?_⟩
  · exact upcoming_birthdays_window_exact.1 ⟨2025, 1, 1⟩
      [Record.mk "Alice" [] (some "03.01.1990")] [("Alice", "03.01.2025")] rfl
  · exact upcoming_birthdays_window_exact.2.1 ⟨2025, 1, 1⟩
      (Record.mk "Alice" [] (some "03.01.1990")) (by decide)
  · exact upcoming_birthdays_window_exact.2.2.2 "Alice" [] "03.01.1990"
      ⟨1990, 1, 3⟩ rfl rfl rfl

/-- Claim C2: the query projects the stored birthday into the current year;
when that projection is strictly before today it projects into next year
instead, and a record in that situation is reported with next year's date. -/
theorem birthday_projection_next_year :
    (∀ (today bd t : Date), date_replace_year bd today.year = .ok t →
      ((t.before today = true →
          projectBirthday today bd = date_replace_year bd (today.year + 1)) ∧
        (t.before today = false → projectBirthday today bd = .ok t))) ∧
    (∀ (today : Date) (r : Record) (b : String) (bd t t1 : Date),
      r.birthday = some b → strptime b = .ok bd →
      date_replace_year bd today.year = .ok t → t.before today = true →
      date_replace_year bd (today.year + 1) = .ok t1 →
      0 ≤ diffDays t1 today → diffDays t1 today ≤ 7 →
        t1.year = today.year + 1 ∧
          recordEntry today r =
            .ok (some (r.name, strftimeDMY (congratulationDate t1)))) := by
  constructor
  · intro today bd t h
    constructor
    · intro hbef
      simp only [projectBirthday, h, if_pos hbef]
    · intro hbef
      have hnb : ¬(t.before today = true) := by
        rw [hbef]
        exact Bool.false_ne_true
      simp only [projectBirthday, h, if_neg hnb]
  · intro today r b bd t t1 hb hs hrep hbef hrep2 h0 h7
    refine ⟨(date_replace_year_ok hrep2).2.2, ?_⟩
    have hproj : projectBirthday today bd = .ok t1 := by
      simp only [projectBirthday, hrep, if_pos hbef, hrep2]
    exact recordEntry_in_window hb hs hproj h0 h7

/-- Witness for C2: birthday Jan 2 already passed on 01.06.2025, so the
projection moves to 2026; the contact "NY" with birthday 02.01.1990 queried
on 30.12.2025 is reported with the 2026 date. -/
theorem birthday_projection_next_year_witness :
    projectBirthday ⟨2025, 6, 1⟩ ⟨1990, 1, 2⟩ =
        date_replace_year ⟨1990, 1, 2⟩ 2026 ∧
      ((⟨2026, 1, 2⟩ : Date).year = (⟨2025, 12, 30⟩ : Date).year + 1 ∧
        recordEntry ⟨2025, 12, 30⟩ (Record.mk "NY" [] (some "02.01.1990")) =
          .ok (some ("NY", strftimeDMY (congratulationDate ⟨2026, 1, 2⟩)))) := by
  constructor
  · exact ((birthday_projection_next_year.1 ⟨2025, 6, 1⟩ ⟨1990, 1, 2⟩
      ⟨2025, 1, 2⟩ rfl).1 (by decide))
  · exact birthday_projection_next_year.2 ⟨2025, 12, 30⟩
      (Record.mk "NY" [] (some "02.01.1990")) "02.01.1990" ⟨1990, 1, 2⟩
      ⟨2025, 1, 2⟩ ⟨2026, 1, 2⟩ rfl rfl rfl (by decide) rfl (by decide) (by decide)

/-- Claim C3: a projected date that is a Saturday (weekday 5) is reported as
the date two days later and a Sunday (weekday 6) as the date one day later,
both being Mondays (weekday 0); a weekday date is reported unchanged; and a
record whose projection lands in the window is reported with exactly the
weekend-adjusted date string. -/
theorem weekend_rolls_to_monday :
    (∀ t : Date, t.Valid →
      ((t.weekday = 5 →
          congratulationDate t = addDays t 2 ∧ (congratulationDate t).weekday = 0) ∧
        (t.weekday = 6 →
          congratulationDate t = addDays t 1 ∧ (congratulationDate t).weekday = 0) ∧
        (t.weekday < 5 → congratulationDate t = t))) ∧
    (∀ (today : Date) (r : Record) (b : String) (bd t : Date),
      r.birthday = some b → strptime b = .ok bd →
      projectBirthday today bd = .ok t →
      0 ≤ diffDays t today → diffDays t today ≤ 7 →
        recordEntry today r =
          .ok (some (r.name, strftimeDMY (congratulationDate t)))) := by
  constructor
  · intro t ht
    refine ⟨?_, ?_, ?_⟩
    · intro h5
      have he : congratulationDate t = addDays t 2 := by
        unfold congratulationDate
        rw [if_pos (by omega), h5]
      refine ⟨he, ?_⟩
      rw [he, weekday_addDays ht 2, h5]
    · intro h6
      have he : congratulationDate t = addDays t 1 := by
        unfold congratulationDate
        rw [if_pos (by omega), h6]
      refine ⟨he, ?_⟩
      rw [he, weekday_addDays ht 1, h6]
    · intro hlt
      unfold congratulationDate
      rw [if_neg (by omega)]
  · intro today r b bd t hb hs hp h0 h7
    exact recordEntry_in_window hb hs hp h0 h7

/-- Witness for C3: 04.01.2025 is a Saturday and rolls to Monday 06.01.2025;
05.01.2025 is a Sunday and rolls to the same Monday; 03.01.2025 is a Friday
and stays; the contact "Sat" with birthday 04.01.1990 queried on 01.01.2025
is reported with the adjusted date. -/
theorem weekend_rolls_to_monday_witness :
    (congratulationDate ⟨2025, 1, 4⟩ = addDays ⟨2025, 1, 4⟩ 2 ∧
        (congratulationDate ⟨2025, 1, 4⟩).weekday = 0) ∧
      (congratulationDate ⟨2025, 1, 5⟩ = addDays ⟨2025, 1, 5⟩ 1 ∧
        (congratulationDate ⟨2025, 1, 5⟩).weekday = 0) ∧
      congratulationDate ⟨2025, 1, 3⟩ = ⟨2025, 1, 3⟩ ∧
      recordEntry ⟨2025, 1, 1⟩ (Record.mk "Sat" [] (some "04.01.1990")) =
        .ok (some ("Sat", strftimeDMY (congratulationDate ⟨2025, 1, 4⟩))) := by
  refine ⟨?_, ?_, ?_, ?_⟩
  · exact (weekend_rolls_to_monday.1 ⟨2025, 1, 4⟩ (by decide)).1 (by decide)
  · exact (weekend_rolls_to_monday.1 ⟨2025, 1, 5⟩ (by decide)).2.1 (by decide)
  · exact (weekend_rolls_to_monday.1 ⟨2025, 1, 3⟩ (by decide)).2.2 (by decide)
  · exact weekend_rolls_to_monday.2 ⟨2025, 1, 1⟩
      (Record.mk "Sat" [] (some "04.01.1990")) "04.01.1990" ⟨1990, 1, 4⟩
      ⟨2025, 1, 4⟩ rfl rfl rfl (by decide) (by decide)

/-- Claim C4: the birthday string 29.02.2024 passes the stored-format
validation (2024 is a leap year), yet with today = 01.03.2025 (a non-leap
year) the query raises at the `replace(year=...)` projection step instead of
returning a list: the current-year projection is not total over validly
stored birthdays. -/
theorem leap_birthday_projection_raises :
    mkBirthday "29.02.2024" = .ok "29.02.2024" ∧
    isLeapYear 2024 = true ∧
    isLeapYear 2025 = false ∧
    (Date.mk 2025 3 1).Valid ∧
    strptime "29.02.2024" = .ok ⟨2024, 2, 29⟩ ∧
    date_replace_year ⟨2024, 2, 29⟩ 2025 = .error "day is out of range for month" ∧
    get_upcoming_birthdays ⟨2025, 3, 1⟩ [Record.mk "Bob" [] (some "29.02.2024")] =
      .error "day is out of range for month" :=
  ⟨rfl, by decide, by decide, by decide, rfl, rfl, rfl⟩

/-- Every ASCII digit `0`-`9` is accepted by `str.isdigit`: the first range
of `pyDigitRanges` is exactly 48-57. -/
theorem pyIsDigit_of_ascii {c : Char} (h : c.isDigit = true) :
    pyIsDigit c = true := by
  simp only [Char.isDigit, Bool.and_eq_true, decide_eq_true_eq] at h
  obtain ⟨h1, h2⟩ := h
  have h1' : 48 ≤ c.toNat := UInt32.le_toNat_of_le (by decide) h1
  have h2' : c.toNat ≤ 57 := UInt32.toNat_le_of_le (by decide) h2
  unfold pyIsDigit pyDigitRanges
  simp only [List.any_cons, List.any_nil, Bool.or_eq_true, Bool.and_eq_true,
    decide_eq_true_eq]
  exact Or.inl ⟨h1', h2'⟩

/-- Counterexample to claim C5 as stated: `str.isdigit` is not restricted to
the digits `0`-`9`, so `Phone.__init__` accepts the ten fullwidth digits
U+FF10-U+FF19 — a 10-character string none of whose characters is an ASCII
numeric character — instead of failing with a `ValueError`. -/
theorem phone_validation_counterexample :
    mkPhone "０１２３４５６７８９" = .ok "０１２３４５６７８９" ∧
    ("０１２３４５６７８９" : String).length = 10 ∧
    ¬(∀ c ∈ ("０１２３４５６７８９" : String).data, '0' ≤ c ∧ c ≤ '9') ∧
    (∀ c ∈ ("０１２３４５６７８９" : String).data, ¬('0' ≤ c ∧ c ≤ '9')) :=
  ⟨rfl, rfl, by decide, by decide⟩

/-- Claim C5 (amended): constructing a phone (and hence adding it to a
record) succeeds iff the string has exactly 10 characters each accepted by
Python's `str.isdigit` (the Unicode decimal/digit characters, a superset of
the ASCII digits `0`-`9`), and fails with a `ValueError` otherwise;
"12345", "12345678901" and "12345abcde" all fail. -/
theorem phone_validation_unicode_iff :
    (∀ s : String, mkPhone s = .ok s ↔
      (s.length = 10 ∧ ∀ c ∈ s.data, pyIsDigit c = true)) ∧
    (∀ (r : Record) (s : String),
      ((r.add_phone s).2 = none ∧ (r.add_phone s).1.phones = r.phones ++ [s]) ↔
        (s.length = 10 ∧ ∀ c ∈ s.data, pyIsDigit c = true)) ∧
    (∀ c : Char, c.isDigit = true → pyIsDigit c = true) ∧
    mkPhone "12345" = .error "ValueError" ∧
    mkPhone "12345678901" = .error "ValueError" ∧
    mkPhone "12345abcde" = .error "ValueError" := by
  have hcond : ∀ s : String,
      (s.length == 10 && s.data.all pyIsDigit) = true ↔
        (s.length = 10 ∧ ∀ c ∈ s.data, pyIsDigit c = true) := by
    intro s
    rw [Bool.and_eq_true, beq_iff_eq, List.all_eq_true]
  refine ⟨?_, ?_, fun c h => pyIsDigit_of_ascii h, rfl, rfl, rfl⟩
  · intro s
    rw [← hcond]
    constructor
    · intro h
      by_cases hc : (s.length == 10 && s.data.all pyIsDigit) = true
      · exact hc
      · rw [mkPhone_eq_error hc] at h
        exact Except.noConfusion h
    · intro hc
      exact mkPhone_eq_ok hc
  · intro r s
    rw [← hcond]
    constructor
    · rintro ⟨h1, h2⟩
      by_cases hc : (s.length == 10 && s.data.all pyIsDigit) = true
      · exact hc
      · rw [add_phone_error (mkPhone_eq_error hc)] at h1
        exact Option.noConfusion h1
    · intro hc
      rw [add_phone_ok (mkPhone_eq_ok hc)]
      exact ⟨rfl, rfl⟩

/-- Witness for C5 (amended): a valid ASCII phone string on the record
level, and the digit `'5'` is covered by the ASCII-inclusion part. -/
theorem phone_validation_unicode_iff_witness :
    (((Record.mk "A" [] none).add_phone "0123456789").2 = none ∧
      ((Record.mk "A" [] none).add_phone "0123456789").1.phones =
        (Record.mk "A" [] none).phones ++ ["0123456789"]) ∧
    pyIsDigit '5' = true := by
  constructor
  · exact (phone_validation_unicode_iff.2.1 (Record.mk "A" [] none)
      "0123456789").mpr (by decide)
  · exact phone_validation_unicode_iff.2.2.1 '5' (by decide)

/-- Claim C6: `edit_phone(old, new)` fails with `ValueError` and leaves the
record unchanged when `old` is not among the stored phones; when `old` is
present and `new` validates, it appends `new` and removes the first
occurrence of `old`. -/
theorem edit_phone_spec :
    ∀ (r : Record) (old new : String),
      (old ∉ r.phones → r.edit_phone old new = (r, some "ValueError")) ∧
      (old ∈ r.phones → mkPhone new = .ok new →
        r.edit_phone old new =
          ({ r with phones := r.phones.erase old ++ [new] }, none)) := by
  intro r old new
  exact ⟨fun h => edit_phone_not_found h,
    fun h1 h2 => edit_phone_found_ok h1 h2⟩

/-- Witness for C6 on the record ("A", ["0123456789"]): editing a missing
number fails; editing the stored number replaces it. -/
theorem edit_phone_spec_witness :
    (Record.mk "A" ["0123456789"] none).edit_phone "1112223334" "9876543210" =
        (Record.mk "A" ["0123456789"] none, some "ValueError") ∧
      (Record.mk "A" ["0123456789"] none).edit_phone "0123456789" "9876543210" =
        ({ Record.mk "A" ["0123456789"] none with
            phones := (Record.mk "A" ["0123456789"] none).phones.erase
              "0123456789" ++ ["9876543210"] }, none) := by
  constructor
  · exact (edit_phone_spec (Record.mk "A" ["0123456789"] none)
      "1112223334" "9876543210").1 (by decide)
  · exact (edit_phone_spec (Record.mk "A" ["0123456789"] none)
      "0123456789" "9876543210").2 (by decide) rfl

/-- Claim C7: every record state reachable from `Record(name)` under
add phone, edit phone and add birthday stores only 10-digit phones and only
parsing birthdays; "29.02.2024" is accepted as a birthday and "31.02.2024"
is rejected. -/
theorem record_invariant_reachable :
    (∀ r : Record, ReachableRecord r → RecordInv r) ∧
    mkBirthday "29.02.2024" = .ok "29.02.2024" ∧
    mkBirthday "31.02.2024" = .error "Invalid date format. Use DD.MM.YYYY" :=
  ⟨fun _ h => RecordInv_of_reachable h, rfl, rfl⟩

/-- Witness for C7: the freshly created record, and the record after a
successful phone add, satisfy the invariant. -/
theorem record_invariant_reachable_witness :
    RecordInv ((Record.init "A").add_phone "0123456789").1 :=
  record_invariant_reachable.1 _
    (ReachableRecord.add_phone "0123456789" (ReachableRecord.init "A"))

/-- Claim C8: when `old` is stored but `new` fails phone validation,
`edit_phone(old, new)` raises and the phone list is unchanged — `old` is
still present and `new` was not added. -/
theorem edit_phone_atomic_on_error :
    ∀ (r : Record) (old new : String), old ∈ r.phones →
      mkPhone new = .error "ValueError" →
        r.edit_phone old new = (r, some "ValueError") ∧
          old ∈ (r.edit_phone old new).1.phones ∧
          (new ∉ r.phones → new ∉ (r.edit_phone old new).1.phones) := by
  intro r old new hold hnew
  have he := edit_phone_invalid_new hold hnew
  refine ⟨he, ?_, ?_⟩
  · rw [he]
    exact hold
  · intro hn
    rw [he]
    exact hn

/-- Witness for C8: editing "0123456789" to the invalid "12345" leaves the
record untouched and raises. -/
theorem edit_phone_atomic_on_error_witness :
    (Record.mk "A" ["0123456789"] none).edit_phone "0123456789" "12345" =
      (Record.mk "A" ["0123456789"] none, some "ValueError") :=
  (edit_phone_atomic_on_error (Record.mk "A" ["0123456789"] none)
    "0123456789" "12345" (by decide) rfl).1

/-- Counterexample to claim C9 as stated: on a record that already stores
the phone "0123456789", adding that phone again and then removing it leaves
one copy, so `find_phone` returns it rather than none. -/
theorem add_remove_find_counterexample :
    mkPhone "0123456789" = .ok "0123456789" ∧
    (((Record.mk "A" ["0123456789"] none).add_phone "0123456789").1.remove_phone
        "0123456789").1.find_phone "0123456789" = some "0123456789" ∧
    ¬((((Record.mk "A" ["0123456789"] none).add_phone "0123456789").1.remove_phone
        "0123456789").1.find_phone "0123456789" = none) :=
  ⟨rfl, rfl, by decide⟩

/-- Claim C9 (amended): for every record and valid phone `p`, adding `p`
then finding it returns `p`; and when `p` was not already stored, removing
it after the add makes `find_phone` return none. -/
theorem add_remove_find_roundtrip :
    ∀ (r : Record) (p : String), mkPhone p = .ok p →
      ((r.add_phone p).1.find_phone p = some p) ∧
      (p ∉ r.phones →
        ((r.add_phone p).1.remove_phone p).1.find_phone p = none) := by
  intro r p hp
  have hadd := add_phone_ok (r := r) hp
  constructor
  · rw [hadd]
    exact find_phone_of_mem (List.mem_append_right _ (by simp))
  · intro hnot
    rw [hadd]
    have hmem : p ∈ r.phones ++ [p] := List.mem_append_right _ (by simp)
    have hrm := remove_phone_of_mem
      (r := { r with phones := r.phones ++ [p] }) hmem
    rw [hrm]
    have hback : (r.phones ++ [p]).erase p = r.phones := by
      rw [List.erase_append_right _ hnot]
      simp
    rw [hback]
    exact find_phone_none_iff.mpr hnot

/-- Witness for C9 (amended) on the empty record. -/
theorem add_remove_find_roundtrip_witness :
    ((Record.mk "A" [] none).add_phone "0123456789").1.find_phone "0123456789" =
        some "0123456789" ∧
      (((Record.mk "A" [] none).add_phone "0123456789").1.remove_phone
          "0123456789").1.find_phone "0123456789" = none := by
  have h := add_remove_find_roundtrip (Record.mk "A" [] none) "0123456789" rfl
  exact ⟨h.1, h.2 (by decide)⟩

end HW02
